import Mathlib

/-!
Verification development for the AI-News-Orchestrator repository.

The Python sources are shallowly embedded as executable Lean definitions:
dictionaries become structures (optional keys become `Option` fields),
Python's stable `sorted`/`list.sort` becomes `List.insertionSort` (both are
stable sorts, hence produce identical output for identical keys), `set`
membership tests become list membership, and exceptions become `Except`.
Machine-float arithmetic in `credibility_scorer.py` is embedded as exact
rational arithmetic; on the reachable value grid (source scores in
{95, 88, 70, 40, 55}, bias scores that are multiples of 5 between 0 and 55)
the binary64 computation of `s*0.7 + c*0.3` truncates to the same integer
as the exact rational value, so the embedding is faithful there.
-/

/-- Substring test on character lists: does `hay` start with `needle`?
Models the anchored part of Python's `in` operator on strings. -/
def charsLeadMatch : List Char → List Char → Bool
  | [], _ => true
  | _ :: _, [] => false
  | c :: cs, h :: hs => c == h && charsLeadMatch cs hs

/-- `charsContain needle hay` holds when `needle` occurs contiguously in
`hay`; models Python's `needle in hay` on strings. -/
def charsContain (needle : List Char) : List Char → Bool
  | [] => charsLeadMatch needle []
  | c :: hs => charsLeadMatch needle (c :: hs) || charsContain needle hs

/-- Python's `pat in hay` substring test. -/
def strContains (hay pat : String) : Bool :=
  charsContain pat.toList hay.toList

/-- Python's `s.lower()` (ASCII case folding, which covers every string the
scorer compares). -/
def strLower (s : String) : String :=
  ⟨s.toList.map Char.toLower⟩

/-- Python's character slice `s[:n]`. -/
def strTake (s : String) (n : Nat) : String :=
  ⟨s.toList.take n⟩

/-- Python's `s.count(c)` for a single-character needle. -/
def countChar (s : String) (c : Char) : Nat :=
  s.toList.count c

/-- Gregorian leap-year rule, as used by Python's `datetime`. -/
def isLeap (y : Nat) : Bool :=
  y % 4 == 0 && (y % 100 != 0 || y % 400 == 0)

/-- Number of days in month `m` of year `y` (Python `calendar`/`datetime`). -/
def daysInMonth (y m : Nat) : Nat :=
  if m == 2 then (if isLeap y then 29 else 28)
  else if m == 4 || m == 6 || m == 9 || m == 11 then 30
  else 31

/-- Split a character list on a separator character (the semantics of
Python's `str.split(sep)` and of `String.split`): `"a--b"` gives three
fields, the empty string gives one empty field. -/
def splitChars (sep : Char) : List Char → List (List Char)
  | [] => [[]]
  | c :: rest =>
    if c == sep then [] :: splitChars sep rest
    else
      match splitChars sep rest with
      | [] => [[c]]
      | g :: gs => (c :: g) :: gs

/-- Numeric value of a digit string. -/
def digitsToNat (cs : List Char) : Nat :=
  cs.foldl (fun acc c => acc * 10 + (c.toNat - 48)) 0

/-- `datetime.strptime(s, "%Y-%m-%d")` from `timeline_generator.py`:
`%Y` takes exactly four digits, `%m` and `%d` take one or two digits, the
three fields are separated by literal dashes with no surrounding text, and
the result must be a valid proleptic-Gregorian date with year at least 1
(`datetime.MINYEAR`).  Returns `none` exactly when `strptime`/`datetime`
raises `ValueError`. -/
def parseYMD (s : String) : Option (Nat × Nat × Nat) :=
  match splitChars '-' s.toList with
  | [ys, ms, ds] =>
    if ys.all Char.isDigit && ys.length == 4
        && ms.all Char.isDigit && 1 ≤ ms.length && ms.length ≤ 2
        && ds.all Char.isDigit && 1 ≤ ds.length && ds.length ≤ 2 then
      let y := digitsToNat ys
      let m := digitsToNat ms
      let d := digitsToNat ds
      if 1 ≤ y && 1 ≤ m && m ≤ 12 && 1 ≤ d && d ≤ daysInMonth y m then
        some (y, m, d)
      else none
    else none
  | _ => none

/-- Injective, order-preserving rank of a calendar date. -/
def dateRank : Nat × Nat × Nat → Nat
  | (y, m, d) => y * 10000 + m * 100 + d

/-- Sort key used by `_sort_timeline` in `timeline_generator.py`: parse the
date string with `strptime("%Y-%m-%d")` and fall back to `datetime.min`
(i.e. year 1, month 1, day 1) when parsing raises. -/
def dateKeyS (s : String) : Nat :=
  match parseYMD s with
  | some t => dateRank t
  | none => dateRank (1, 1, 1)

/-- Number of leap years strictly before year `y` (proleptic Gregorian). -/
def leapsBefore (y : Nat) : Nat :=
  (y - 1) / 4 - (y - 1) / 100 + (y - 1) / 400

/-- Days in the months of year `y` strictly before month `m`. -/
def daysBeforeMonth (y m : Nat) : Nat :=
  ((List.range m).filter (fun k => 1 ≤ k)).foldl (fun acc k => acc + daysInMonth y k) 0

/-- Python's `date.toordinal`: day number of a Gregorian date, so that
`(a - b).days = toOrdinal a - toOrdinal b` for midnight datetimes. -/
def toOrdinal : Nat × Nat × Nat → Nat
  | (y, m, d) => 365 * (y - 1) + leapsBefore y + daysBeforeMonth y m + d

/-- One extracted-date dictionary attached to an article by
`ArticleProcessor._extract_dates`: keys `date` (normalized `"%Y-%m-%d"`
string), `datetime` (embedded as its day ordinal `ord`), `context`, and
`source` (either `"metadata"` or `"text"`). -/
structure DatedMention where
  date : String
  ord : Nat
  context : String
  source : String
deriving Repr, DecidableEq

/-- A successful `dateparser.parse` outcome for one candidate substring:
`key` is the `strftime("%Y-%m-%d")` rendering of the parsed datetime and
`ord` its day ordinal (in Python these determine each other); `context` is
the surrounding-text snippet captured for this candidate.  The regex and
`dateparser` machinery of `_extract_dates` is an external library, so the
embedding takes the stream of successful parse outcomes as input. -/
structure ParsedDate where
  key : String
  ord : Nat
  context : String
deriving Repr, DecidableEq

/-- An article dictionary as consumed by the core (missing keys modeled as
`none`, matching Python's `article.get(k, default)`). -/
structure Article where
  title : Option String := none
  source : Option String := none
  cleaned_content : Option String := none
  extracted_dates : List DatedMention := []
deriving Repr, DecidableEq

/-- One entry of an analysis `timeline` list: a dictionary that may or may
not carry the `date` and `event` keys. -/
structure AEntry where
  date : Option String := none
  event : Option String := none
deriving Repr, DecidableEq

/-- The analysis payload (LLM output or `_basic_analysis` fallback).
`timeline = none` models a dictionary without the `"timeline"` key.
`discrepancies` entries are opaque to every modeled operation, so they are
embedded as strings. -/
structure AnalysisResult where
  timeline : Option (List AEntry) := none
  summary : String := ""
  key_highlights : List String := []
  discrepancies : List String := []
  verified_facts : List String := []
deriving Repr, DecidableEq

/-- A timeline-event dictionary built by `TimelineGenerator`.  The keys
`event_count` and `is_milestone` are absent (`none`) until the merge and
milestone passes add them. -/
structure TEvent where
  date : String
  event : String
  source : String
  event_count : Option Nat := none
  is_milestone : Option Bool := none
deriving Repr, DecidableEq

/-- Default used only to state positional lemmas via `List.getD`. -/
def dummyEvent : TEvent := ⟨"", "", "", none, none⟩

/-! ### `ArticleProcessor._extract_dates` (`article_processor.py`) -/

/-- The metadata part of `_extract_dates`: if the publication-date string
parsed, and the parsed datetime is not in the future, emit one mention
tagged `"metadata"`.  `now` is the current day ordinal
(`datetime.now()`). -/
def metaMentions (now : Nat) (pub : Option ParsedDate) : List DatedMention :=
  match pub with
  | some p => if p.ord ≤ now then [⟨p.key, p.ord, "Article publication date", "metadata"⟩] else []
  | none => []

/-- The text-scanning loops of `_extract_dates` (both the pattern pass and
the natural-language pass share the single `found_dates` set): walk the
successfully parsed candidates in match order, skip future dates, and skip
any candidate whose normalized date key was already seen.  `found` is the
`found_dates` set. -/
def dedupCands (now : Nat) : List String → List ParsedDate → List DatedMention
  | _, [] => []
  | found, c :: cs =>
    if now < c.ord then dedupCands now found cs
    else if c.key ∈ found then dedupCands now found cs
    else ⟨c.key, c.ord, c.context, "text"⟩ :: dedupCands now (c.key :: found) cs

/-- Comparison used for the final `valid_dates.sort(key=...)`: sort by the
parsed datetime.  `insertionSort` is stable, like Python's sort. -/
def mentionLE (a b : DatedMention) : Prop := a.ord ≤ b.ord

instance : DecidableRel mentionLE := fun a b => Nat.decLe a.ord b.ord

/-- `ArticleProcessor._extract_dates`, with the external `dateparser`/regex
machinery abstracted into its inputs: `pub` is the parse outcome for the
publication-date string (`none` when parsing failed) and `cands` the
ordered stream of successful parse outcomes for matched substrings of the
text.  The final pass filters out future dates (a no-op by construction)
and sorts ascending by datetime. -/
def extractDates (now : Nat) (pub : Option ParsedDate) (cands : List ParsedDate) : List DatedMention :=
  let collected := metaMentions now pub ++ dedupCands now [] cands
  let valid := collected.filter (fun m => m.ord ≤ now)
  List.insertionSort mentionLE valid

/-! ### `TimelineGenerator` (`timeline_generator.py`) -/

/-- The first collection loop of `generate_timeline`: events of
`analysis["timeline"]` that carry both a `date` and an `event` key, tagged
with source `"ai_analysis"`. -/
def collectAI (analysis : AnalysisResult) : List TEvent :=
  match analysis.timeline with
  | none => []
  | some entries =>
    entries.filterMap (fun en =>
      match en.date, en.event with
      | some d, some ev => some ⟨d, ev, "ai_analysis", none, none⟩
      | _, _ => none)

/-- `any(e["date"] == date_str for e in timeline_events)`. -/
def hasDate (d : String) (evs : List TEvent) : Bool :=
  evs.any (fun e => e.date == d)

/-- The per-article inner loop of `generate_timeline`: for each extracted
date, append a synthesized "News coverage" entry unless some already
collected event has the same date string. -/
def addArticleEvents (acc : List TEvent) (art : Article) : List TEvent :=
  art.extracted_dates.foldl
    (fun acc m =>
      if hasDate m.date acc then acc
      else acc ++ [⟨m.date, "News coverage: " ++ strTake (art.title.getD "") 80,
                   art.source.getD "Unknown", none, none⟩])
    acc

/-- The full collection phase of `generate_timeline` (lines 27-50). -/
def collectEvents (analysis : AnalysisResult) (articles : List Article) : List TEvent :=
  articles.foldl addArticleEvents (collectAI analysis)

/-- First-occurrence deduplication with an explicit seen-set; models both
Python dict key insertion order (`defaultdict` grouping) and
`list(set(...))` (whose iteration order Python leaves unspecified; the
embedding fixes first-occurrence order, and no theorem depends on it). -/
def uniqueKeysAux : List String → List String → List String
  | _, [] => []
  | seen, d :: ds =>
    if d ∈ seen then uniqueKeysAux seen ds
    else d :: uniqueKeysAux (d :: seen) ds

/-- The distinct date keys of a list, in first-occurrence order. -/
def uniqueKeys (l : List String) : List String :=
  uniqueKeysAux [] l

/-- Build the merged event for date-group key `d` in
`_merge_duplicate_dates`: a singleton group passes through unchanged; a
larger group becomes one event joining the first three descriptions with
`" | "`, up to three distinct sources with `", "`, and an `event_count`
equal to the full group size. -/
def mergeOne (events : List TEvent) (d : String) : Option TEvent :=
  match events.filter (fun e => e.date == d) with
  | [] => none
  | [e] => some e
  | g =>
    some ⟨d, String.intercalate " | " ((g.map (fun e => e.event)).take 3),
          String.intercalate ", " ((uniqueKeys (g.map (fun e => e.source))).take 3),
          some g.length, none⟩

/-- `TimelineGenerator._merge_duplicate_dates`: group by identical date
string (dict insertion order) and merge each group. -/
def mergeDuplicateDates (events : List TEvent) : List TEvent :=
  (uniqueKeys (events.map (fun e => e.date))).filterMap (mergeOne events)

/-- Comparison used by `_sort_timeline`: parsed date with `datetime.min`
fallback. -/
def evLE (a b : TEvent) : Prop := dateKeyS a.date ≤ dateKeyS b.date

instance : DecidableRel evLE := fun a b => Nat.decLe (dateKeyS a.date) (dateKeyS b.date)

instance : IsTotal TEvent evLE := ⟨fun a b => Nat.le_total (dateKeyS a.date) (dateKeyS b.date)⟩

instance : IsTrans TEvent evLE := ⟨fun _ _ _ h h2 => Nat.le_trans h h2⟩

/-- `TimelineGenerator._sort_timeline` (Python's `sorted` is stable, as is
`insertionSort`, so the two agree exactly). -/
def sortTimeline (events : List TEvent) : List TEvent :=
  List.insertionSort evLE events

/-- The fixed keyword list of `_identify_milestones`. -/
def milestoneKeywords : List String :=
  ["launch", "announced", "completed", "achieved", "landed", "successful",
   "failed", "breakthrough", "discovery", "summit", "signed", "released"]

/-- `any(keyword in event_lower for keyword in milestone_keywords)`. -/
def hasMilestoneKeyword (e : TEvent) : Bool :=
  milestoneKeywords.any (fun k => strContains (strLower e.event) k)

/-- Set the `is_milestone` key of an event dictionary. -/
def setMile (b : Bool) (e : TEvent) : TEvent :=
  { e with is_milestone := some b }

/-- Index-aware map (used to express the in-place flag mutation loop). -/
def mapWithIdx (f : Nat → TEvent → TEvent) : Nat → List TEvent → List TEvent
  | _, [] => []
  | i, e :: es => f i e :: mapWithIdx f (i + 1) es

/-- `TimelineGenerator._identify_milestones`: with at most three events all
are milestones; otherwise the first and last are set to milestones and each
interior event is classified by keyword presence. -/
def identifyMilestones (events : List TEvent) : List TEvent :=
  if events.length ≤ 3 then events.map (setMile true)
  else
    mapWithIdx
      (fun i e =>
        if i = 0 ∨ i = events.length - 1 then setMile true e
        else setMile (hasMilestoneKeyword e) e)
      0 events

/-- `TimelineGenerator.generate_timeline`: collect, merge duplicates, sort
chronologically, annotate milestones. -/
def generateTimeline (analysis : AnalysisResult) (articles : List Article) : List TEvent :=
  identifyMilestones (sortTimeline (mergeDuplicateDates (collectEvents analysis articles)))

/-- Result dictionary of `get_timeline_stats`.  The empty-timeline branch
returns a dictionary without the `duration_days` key (`none`). -/
structure TimelineStats where
  total_events : Nat
  date_range : String
  milestone_count : Nat
  duration_days : Option Int
deriving Repr, DecidableEq

/-- `TimelineGenerator.get_timeline_stats`.  On a nonempty timeline it
calls `datetime.strptime(e["date"], "%Y-%m-%d")` on every event with no
exception handling, so an unparseable date raises `ValueError`; that raise
is embedded as `Except.error`.  (Every event dictionary carries a `date`
key, so the `if "date" in e` guard is always true.) -/
def getTimelineStats (timeline : List TEvent) : Except String TimelineStats :=
  match timeline with
  | [] => Except.ok ⟨0, "N/A", 0, none⟩
  | first :: rest =>
    match (first :: rest).mapM (fun e => parseYMD e.date) with
    | none => Except.error "ValueError: time data does not match format %Y-%m-%d"
    | some parsed =>
      let ords := parsed.map toOrdinal
      Except.ok
        { total_events := (first :: rest).length
          date_range := first.date ++ " to " ++ ((first :: rest).getLast (by simp)).date
          milestone_count := ((first :: rest).filter (fun e => e.is_milestone.getD false)).length
          duration_days :=
            some (match ords with
                  | [] => 0
                  | o :: os => ((os.foldl max o : Nat) : Int) - ((os.foldl min o : Nat) : Int)) }

/-! ### `AIAnalyzer.detect_bias` and `CredibilityScorer` -/

/-- `REPUTABLE_SOURCES` from `config.py`. -/
def REPUTABLE_SOURCES : List String :=
  ["bbc", "reuters", "ap news", "associated press", "the new york times",
   "the washington post", "the guardian", "cnn", "npr", "pbs", "al jazeera",
   "bloomberg", "wall street journal", "forbes", "time", "newsweek"]

/-- The top-tier names checked inside `score_source`. -/
def topTierNames : List String :=
  ["bbc", "reuters", "associated press", "ap news", "the new york times"]

/-- The `clickbait_words` list of `detect_bias` in `ai_analyzer.py`. -/
def clickbaitWords : List String :=
  ["shocking", "amazing", "you won\x27t believe", "secret", "exposed"]

/-- The `subjective_words` list of `detect_bias`; built by the source but
never consulted by the scoring logic. -/
def subjectiveWords : List String :=
  ["terrible", "amazing", "worst", "best", "disaster"]

/-- Result dictionary of `detect_bias`. -/
structure BiasResult where
  bias_score : Nat
  flags : List String
  is_clickbait : Bool
deriving Repr, DecidableEq

/-- One fold step of the clickbait-word loop in `detect_bias`: a matched
word adds 10 to the score and appends a flag. -/
def biasStep (titleLower : String) (acc : Nat × List String) (w : String) : Nat × List String :=
  if strContains titleLower w then
    (acc.1 + 10, acc.2 ++ ["Clickbait language detected: \x27" ++ w ++ "\x27"])
  else acc

/-- Total `!` count over the title and the first 1000 characters of the
cleaned content, as computed by `detect_bias`. -/
def exclamationCount (article : Article) : Nat :=
  countChar (article.title.getD "") '!' + countChar (strTake (article.cleaned_content.getD "") 1000) '!'

/-- `AIAnalyzer.detect_bias`.  Note that the clickbait-word scan runs over
`title_lower` only; the content prefix feeds nothing but the
exclamation-mark count. -/
def detectBias (article : Article) : BiasResult :=
  let title := article.title.getD ""
  let titleLower := strLower title
  let sf := clickbaitWords.foldl (biasStep titleLower) (0, [])
  let sf :=
    if 3 < exclamationCount article then (sf.1 + 5, sf.2 ++ ["Excessive exclamation marks"])
    else sf
  ⟨min sf.1 100, sf.2, decide (15 < sf.1)⟩

/-- Result dictionary of `score_source`. -/
structure SourceScore where
  score : Nat
  is_reputable : Bool
  reason : String
  source_name : String
deriving Repr, DecidableEq

/-- `CredibilityScorer.score_source`: tiered case-insensitive substring
match (the constructor lowercases `REPUTABLE_SOURCES`, modeled by the
`String.toLower` map). -/
def scoreSource (source_name : String) : SourceScore :=
  let sl := strLower source_name
  let isRep := (REPUTABLE_SOURCES.map strLower).any (fun r => strContains sl r)
  if isRep then
    if topTierNames.any (fun n => strContains sl n) then
      ⟨95, isRep, "Highly reputable news source", source_name⟩
    else ⟨88, isRep, "Known reputable news source", source_name⟩
  else if ["news", "times", "post", "tribune"].any (fun w => strContains sl w) then
    ⟨70, isRep, "Appears to be a news organization", source_name⟩
  else if ["blog", "medium", "substack"].any (fun w => strContains sl w) then
    ⟨40, isRep, "Blog or independent publication", source_name⟩
  else ⟨55, isRep, "Unknown source", source_name⟩

/-- Result dictionary of `score_article`. -/
structure ArticleScore where
  overall_score : Nat
  source_score : Nat
  content_score : Nat
  bias_score : Nat
  is_clickbait : Bool
  flags : List String
  source_details : SourceScore
deriving Repr, DecidableEq

/-- `CredibilityScorer.score_article`.  `max(0, 100 - bias_score)` is Nat
truncated subtraction; Python's `int(...)` truncation of the nonnegative
float `source_score * 0.7 + content_quality * 0.3` is embedded as the
rational floor (on the reachable value grid the binary64 result truncates
to the same integer, see the header comment); `max(0, overall - 20)` is
again Nat subtraction. -/
def scoreArticle (article : Article) : ArticleScore :=
  let ssd := scoreSource (article.source.getD "Unknown")
  let bd := detectBias article
  let content_quality : Nat := 100 - bd.bias_score
  let overall0 : Nat :=
    (Int.floor ((ssd.score : ℚ) * (7 / 10) + (content_quality : ℚ) * (3 / 10))).toNat
  let overall1 : Nat := if bd.is_clickbait then overall0 - 20 else overall0
  ⟨min 100 overall1, ssd.score, content_quality, bd.bias_score, bd.is_clickbait, bd.flags, ssd⟩

/-! ### `AIAnalyzer._basic_analysis` and the application guard -/

/-- Comparison for the fallback's `timeline_events.sort(key=lambda x:
x["date"])`: plain string order on the `date` value. -/
def aentryLE (a b : AEntry) : Prop := a.date.getD "" ≤ b.date.getD ""

instance : DecidableRel aentryLE := fun a b => inferInstanceAs (Decidable (a.date.getD "" ≤ b.date.getD ""))

instance : IsTotal AEntry aentryLE := ⟨fun a b => le_total (a.date.getD "") (b.date.getD "")⟩

instance : IsTrans AEntry aentryLE := ⟨fun _ _ _ h h2 => le_trans h h2⟩

/-- The collection loop of `_basic_analysis`: walk every article's
extracted dates, keeping the first entry per date string (`all_dates` is
the seen-set; the empty-string guard is `if date_str`).  Mentions are
dictionaries here, so the `isinstance` string branch never fires. -/
def basicCollect (articles : List Article) : List String × List AEntry :=
  articles.foldl
    (fun acc art =>
      art.extracted_dates.foldl
        (fun acc di =>
          if di.date ≠ "" ∧ di.date ∉ acc.1 then
            (di.date :: acc.1,
             acc.2 ++ [⟨some di.date,
                        some ("News reported by " ++ art.source.getD "Unknown" ++ ": "
                              ++ strTake (art.title.getD "") 100)⟩])
          else acc)
        acc)
    ([], [])

/-- `AIAnalyzer._basic_analysis`, the non-LLM fallback.  The summary joins
the distinct sources of the first five articles (`set` iteration order is
unspecified in Python; the embedding fixes first-occurrence order). -/
def basicAnalysis (event_query : String) (articles : List Article) : AnalysisResult :=
  let entries := (basicCollect articles).2
  let sorted := List.insertionSort aentryLE entries
  let titles := (articles.take 5).map (fun a => a.title.getD "")
  { timeline := some sorted
    summary := "Analysis of " ++ toString articles.length ++ " articles about \x27"
               ++ event_query ++ "\x27. Key sources include: "
               ++ String.intercalate ", " (uniqueKeys ((articles.take 5).map (fun a => a.source.getD "Unknown")))
               ++ "."
    key_highlights := titles.take 5
    discrepancies := []
    verified_facts := [] }

/-- The error message shown by `app.py` when the fetcher returns no
articles (`st.error` followed by `return`). -/
def noArticlesError : String :=
  "No articles found. Try a different search term or check your API keys."

/-- The zero-articles guard of `main()` in `app.py` (lines 186-188)
composed with the fallback-analysis path and the timeline core: an empty
fetch result aborts with an explicit error before any timeline is built;
otherwise the consolidated timeline is produced. -/
def appAnalyzeArticles (event_query : String) (articles : List Article) : Except String (List TEvent) :=
  if articles.isEmpty then Except.error noArticlesError
  else Except.ok (generateTimeline (basicAnalysis event_query articles) articles)

/-! ### Helper lemmas -/

theorem mem_uniqueKeysAux (x : String) (l : List String) :
    ∀ seen : List String, x ∈ uniqueKeysAux seen l ↔ x ∈ l ∧ x ∉ seen := by
  induction l with
  | nil => intro seen; simp [uniqueKeysAux]
  | cons d ds ih =>
    intro seen
    by_cases hd : d ∈ seen
    · simp only [uniqueKeysAux, if_pos hd, ih seen, List.mem_cons]
      constructor
      · rintro ⟨h1, h2⟩; exact ⟨Or.inr h1, h2⟩
      · rintro ⟨h1 | h1, h2⟩
        · exact absurd (h1 ▸ hd) h2
        · exact ⟨h1, h2⟩
    · simp only [uniqueKeysAux, if_neg hd, List.mem_cons, ih (d :: seen)]
      constructor
      · rintro (rfl | ⟨h1, h2⟩)
        · exact ⟨Or.inl rfl, hd⟩
        · exact ⟨Or.inr h1, fun hc => h2 (Or.inr hc)⟩
      · rintro ⟨rfl | h1, h2⟩
        · exact Or.inl rfl
        · by_cases hxd : x = d
          · exact Or.inl hxd
          · exact Or.inr ⟨h1, by simp [hxd, h2]⟩

theorem nodup_uniqueKeysAux (l : List String) :
    ∀ seen : List String, (uniqueKeysAux seen l).Nodup := by
  induction l with
  | nil => intro seen; simp [uniqueKeysAux]
  | cons d ds ih =>
    intro seen
    by_cases hd : d ∈ seen
    · simpa [uniqueKeysAux, if_pos hd] using ih seen
    · rw [uniqueKeysAux, if_neg hd]
      refine List.Nodup.cons (fun hc => ?_) (ih (d :: seen))
      exact ((mem_uniqueKeysAux d ds (d :: seen)).1 hc).2 (List.mem_cons_self d seen)

theorem mem_uniqueKeys (x : String) (l : List String) : x ∈ uniqueKeys l ↔ x ∈ l := by
  simp [uniqueKeys, mem_uniqueKeysAux]

theorem nodup_uniqueKeys (l : List String) : (uniqueKeys l).Nodup :=
  nodup_uniqueKeysAux l []

theorem foldl_preserve {β γ : Type} (P : γ → Prop) (f : γ → β → γ)
    (hf : ∀ acc b, P acc → P (f acc b)) :
    ∀ (l : List β) (acc : γ), P acc → P (l.foldl f acc) := by
  intro l
  induction l with
  | nil => intro acc h; exact h
  | cons b bs ih => intro acc h; exact ih (f acc b) (hf acc b h)

/-- Invariant carried through the collection loops of `generate_timeline`:
the accumulator is the AI prefix followed by synthesized entries whose date
strings are pairwise distinct, absent from the AI prefix, and which carry
no `event_count`. -/
def collInv (analysis : AnalysisResult) (acc : List TEvent) : Prop :=
  ∃ rest, acc = collectAI analysis ++ rest ∧
    ((rest.map (fun e => e.date)).Nodup ∧
     ∀ e ∈ rest, e.date ∉ (collectAI analysis).map (fun e => e.date) ∧ e.event_count = none)

theorem hasDate_false_iff (d : String) (evs : List TEvent) :
    hasDate d evs = false ↔ d ∉ evs.map (fun e => e.date) := by
  simp [hasDate, List.any_eq_true, List.mem_map]

theorem collInv_step (analysis : AnalysisResult) (acc : List TEvent) (art : Article) :
    collInv analysis acc → collInv analysis (addArticleEvents acc art) := by
  intro h
  unfold addArticleEvents
  refine foldl_preserve (collInv analysis) _ ?_ _ acc h
  rintro acc2 m ⟨rest, rfl, hnd, hmem⟩
  by_cases hin : hasDate m.date (collectAI analysis ++ rest) = true
  · exact ⟨rest, by simp [hin], hnd, hmem⟩
  · have hfresh : m.date ∉ (collectAI analysis ++ rest).map (fun e => e.date) :=
      (hasDate_false_iff _ _).1 (Bool.eq_false_iff.2 hin)
    rw [List.map_append, List.mem_append] at hfresh
    push_neg at hfresh
    refine ⟨rest ++ [⟨m.date, "News coverage: " ++ strTake (art.title.getD "") 80,
              art.source.getD "Unknown", none, none⟩], by simp [hin], ?_, ?_⟩
    · rw [List.map_append, List.nodup_append]
      refine ⟨hnd, by simp, ?_⟩
      intro x hx hy
      simp only [List.map_cons, List.map_nil, List.mem_singleton] at hy
      exact hfresh.2 (hy ▸ hx)
    · intro e he
      rcases List.mem_append.1 he with he | he
      · exact hmem e he
      · simp only [List.mem_singleton] at he
        subst he
        exact ⟨hfresh.1, rfl⟩

theorem collectAI_event_count (analysis : AnalysisResult) :
    ∀ e ∈ collectAI analysis, e.event_count = none := by
  intro e he
  unfold collectAI at he
  rcases hta : analysis.timeline with _ | entries
  · rw [hta] at he; simp at he
  · rw [hta] at he
    rcases List.mem_filterMap.1 he with ⟨en, _, hen⟩
    cases hd : en.date <;> cases hev : en.event <;> rw [hd, hev] at hen
    case none.none => simp at hen
    case none.some => simp at hen
    case some.none => simp at hen
    case some.some =>
      injection hen with hen2
      subst hen2
      rfl

theorem collectEvents_structure (analysis : AnalysisResult) (articles : List Article) :
    collInv analysis (collectEvents analysis articles) := by
  unfold collectEvents
  refine foldl_preserve (collInv analysis) addArticleEvents
    (fun acc art => collInv_step analysis acc art) articles _ ?_
  exact ⟨[], by simp, by simp, by simp⟩

theorem collectEvents_event_count (analysis : AnalysisResult) (articles : List Article) :
    ∀ e ∈ collectEvents analysis articles, e.event_count = none := by
  rcases collectEvents_structure analysis articles with ⟨rest, heq, _, hmem⟩
  intro e he
  rw [heq] at he
  rcases List.mem_append.1 he with he | he
  · exact collectAI_event_count analysis e he
  · exact (hmem e he).2

theorem mergeOne_eq_some (events : List TEvent) (d : String)
    (hd : d ∈ events.map (fun e => e.date)) : ∃ ev, mergeOne events d = some ev := by
  rcases List.mem_map.1 hd with ⟨e, he, rfl⟩
  have hfe : e ∈ events.filter (fun e2 => e2.date == e.date) :=
    List.mem_filter.2 ⟨he, by simp⟩
  unfold mergeOne
  rcases hfil : events.filter (fun e2 => e2.date == e.date) with _ | ⟨a, _ | ⟨b, g⟩⟩ <;>
    rw [hfil]
  · rw [hfil] at hfe; simp at hfe
  · exact ⟨a, rfl⟩
  · exact ⟨_, rfl⟩

theorem mergeOne_date (events : List TEvent) (d : String) (ev : TEvent)
    (h : mergeOne events d = some ev) : ev.date = d := by
  unfold mergeOne at h
  rcases hfil : events.filter (fun e2 => e2.date == d) with _ | ⟨a, _ | ⟨b, g⟩⟩ <;>
    rw [hfil] at h
  · simp at h
  · have ha : a ∈ events.filter (fun e2 => e2.date == d) := by rw [hfil]; simp
    have := (List.mem_filter.1 ha).2
    injection h with h2
    subst h2
    simpa using this
  · injection h with h2
    subst h2
    rfl

theorem mergeOne_event_count (events : List TEvent) (d : String) (ev : TEvent)
    (hnone : ∀ e ∈ events, e.event_count = none)
    (h : mergeOne events d = some ev) :
    (((events.filter (fun e2 => e2.date == d)).length = 1 → ev.event_count = none) ∧
     (2 ≤ (events.filter (fun e2 => e2.date == d)).length →
        ev.event_count = some (events.filter (fun e2 => e2.date == d)).length)) := by
  unfold mergeOne at h
  rcases hfil : events.filter (fun e2 => e2.date == d) with _ | ⟨a, _ | ⟨b, g⟩⟩ <;>
    rw [hfil] at h
  · simp at h
  · injection h with h2
    have ha : a ∈ events.filter (fun e2 => e2.date == d) := by rw [hfil]; simp
    refine ⟨fun _ => ?_, fun hlen => ?_⟩
    · rw [← h2]
      exact hnone a (List.mem_filter.1 ha).1
    · rw [hfil] at hlen
      simp at hlen
  · injection h with h2
    refine ⟨fun hlen => ?_, fun _ => ?_⟩
    · rw [hfil] at hlen
      simp only [List.length_cons] at hlen
      omega
    · rw [← h2, hfil]

theorem mergeOne_getD_count (events : List TEvent) (d : String) (ev : TEvent)
    (hnone : ∀ e ∈ events, e.event_count = none)
    (h : mergeOne events d = some ev) :
    ev.event_count.getD 1 = (events.filter (fun e2 => e2.date == d)).length := by
  have hcases := mergeOne_event_count events d ev hnone h
  have hple : 1 ≤ (events.filter (fun e2 => e2.date == d)).length := by
    unfold mergeOne at h
    rcases hfil : events.filter (fun e2 => e2.date == d) with _ | ⟨a, g⟩ <;> rw [hfil] at h
    · simp at h
    · rw [hfil]
      simp
  rcases Nat.lt_or_ge (events.filter (fun e2 => e2.date == d)).length 2 with h2 | h2
  · have h1 : (events.filter (fun e2 => e2.date == d)).length = 1 := by omega
    rw [hcases.1 h1, h1]
    rfl
  · rw [hcases.2 h2]
    rfl

theorem merge_map_date_aux (events : List TEvent) :
    ∀ K : List String, (∀ d ∈ K, d ∈ events.map (fun e => e.date)) →
      (K.filterMap (mergeOne events)).map (fun e => e.date) = K := by
  intro K
  induction K with
  | nil => intro _; rfl
  | cons d ds ih =>
    intro hK
    rcases mergeOne_eq_some events d (hK d (List.mem_cons_self d ds)) with ⟨ev, hev⟩
    rw [List.filterMap_cons, hev, List.map_cons, mergeOne_date events d ev hev,
      ih (fun x hx => hK x (List.mem_cons_of_mem d hx))]

theorem merge_map_date (events : List TEvent) :
    (mergeDuplicateDates events).map (fun e => e.date) = uniqueKeys (events.map (fun e => e.date)) := by
  unfold mergeDuplicateDates
  exact merge_map_date_aux events _ (fun d hd => (mem_uniqueKeys d _).1 hd)

theorem sum_map_add (K : List String) (f g : String → Nat) :
    (K.map (fun d => f d + g d)).sum = (K.map f).sum + (K.map g).sum := by
  induction K with
  | nil => rfl
  | cons d ds ih => simp [ih]; omega

theorem sum_ite_zero (x : String) (K : List String) (hx : x ∉ K) :
    (K.map (fun d => if x = d then (1 : Nat) else 0)).sum = 0 := by
  induction K with
  | nil => rfl
  | cons d ds ih =>
    have hxd : x ≠ d := fun h => hx (h ▸ List.mem_cons_self d ds)
    have hxs : x ∉ ds := fun h => hx (List.mem_cons_of_mem d h)
    simp [hxd, ih hxs]

theorem sum_ite_one (x : String) (K : List String) (hK : K.Nodup) (hx : x ∈ K) :
    (K.map (fun d => if x = d then (1 : Nat) else 0)).sum = 1 := by
  induction K with
  | nil => simp at hx
  | cons d ds ih =>
    rcases List.mem_cons.1 hx with rfl | hx2
    · simp [sum_ite_zero x ds (List.nodup_cons.1 hK).1]
    · have hxd : x ≠ d := by
        rintro rfl
        exact (List.nodup_cons.1 hK).1 hx2
      simp [hxd, ih (List.nodup_cons.1 hK).2 hx2]

theorem sum_countP_keys (events : List TEvent) (K : List String) (hK : K.Nodup)
    (hcover : ∀ e ∈ events, e.date ∈ K) :
    (K.map (fun d => events.countP (fun e => e.date == d))).sum = events.length := by
  induction events with
  | nil => simp [List.countP_nil]
  | cons e l ih =>
    have hstep : (K.map (fun d => List.countP (fun e2 => e2.date == d) (e :: l))) =
        K.map (fun d => List.countP (fun e2 => e2.date == d) l + if e.date = d then 1 else 0) := by
      refine List.map_congr_left ?_
      intro d _
      rw [List.countP_cons]
      by_cases hde : e.date = d <;> simp [hde]
    rw [hstep, sum_map_add, ih (fun x hx => hcover x (List.mem_cons_of_mem e hx)),
      sum_ite_one e.date K hK (hcover e (List.mem_cons_self e l)), List.length_cons]

theorem mapWithIdx_length (f : Nat → TEvent → TEvent) :
    ∀ (l : List TEvent) (n : Nat), (mapWithIdx f n l).length = l.length := by
  intro l
  induction l with
  | nil => intro n; rfl
  | cons e es ih => intro n; simp [mapWithIdx, ih]

theorem mapWithIdx_map_date (f : Nat → TEvent → TEvent)
    (hf : ∀ i e, (f i e).date = e.date) :
    ∀ (l : List TEvent) (n : Nat),
      (mapWithIdx f n l).map (fun e => e.date) = l.map (fun e => e.date) := by
  intro l
  induction l with
  | nil => intro n; rfl
  | cons e es ih => intro n; simp [mapWithIdx, hf, ih]

theorem mapWithIdx_getD (f : Nat → TEvent → TEvent) :
    ∀ (l : List TEvent) (n i : Nat), i < l.length →
      (mapWithIdx f n l).getD i dummyEvent = f (n + i) (l.getD i dummyEvent) := by
  intro l
  induction l with
  | nil => intro n i hi; simp at hi
  | cons e es ih =>
    intro n i hi
    cases i with
    | zero => simp [mapWithIdx]
    | succ j =>
      have hj : j < es.length := by simpa using hi
      have := ih (n + 1) j hj
      simp only [mapWithIdx, List.getD_cons_succ, this]
      congr 1
      omega

theorem identifyMilestones_map_date (l : List TEvent) :
    (identifyMilestones l).map (fun e => e.date) = l.map (fun e => e.date) := by
  unfold identifyMilestones
  by_cases h : l.length ≤ 3
  · rw [if_pos h, List.map_map]
    rfl
  · rw [if_neg h]
    refine mapWithIdx_map_date _ ?_ l 0
    intro i e
    by_cases hi : i = 0 ∨ i = l.length - 1 <;> simp [hi, setMile]

theorem identifyMilestones_length (l : List TEvent) :
    (identifyMilestones l).length = l.length := by
  unfold identifyMilestones
  by_cases h : l.length ≤ 3
  · rw [if_pos h]; simp
  · rw [if_neg h]; exact mapWithIdx_length _ l 0

/-- C1: for every analysis result and article list, the consolidated
timeline has pairwise-distinct date strings and is ordered non-decreasing
by parsed date (`evLE`, which treats any string that `strptime("%Y-%m-%d")`
rejects as `datetime.min`). -/
theorem generateTimeline_dates_nodup_sorted (analysis : AnalysisResult) (articles : List Article) :
    ((generateTimeline analysis articles).map (fun e => e.date)).Nodup ∧
    List.Pairwise evLE (generateTimeline analysis articles) := by
  unfold generateTimeline
  set merged := mergeDuplicateDates (collectEvents analysis articles) with hm
  have hnodupm : (merged.map (fun e => e.date)).Nodup := by
    rw [hm, merge_map_date]
    exact nodup_uniqueKeys _
  have hperm : (sortTimeline merged).Perm merged := List.perm_insertionSort evLE merged
  have hnodups : ((sortTimeline merged).map (fun e => e.date)).Nodup :=
    ((hperm.map (fun e => e.date)).nodup_iff).2 hnodupm
  have hsorted : List.Pairwise evLE (sortTimeline merged) :=
    List.sorted_insertionSort evLE merged
  have hmd : (identifyMilestones (sortTimeline merged)).map (fun e => e.date) =
      (sortTimeline merged).map (fun e => e.date) :=
    identifyMilestones_map_date _
  constructor
  · rw [hmd]
    exact hnodups
  · have h1 : List.Pairwise (fun d1 d2 => dateKeyS d1 ≤ dateKeyS d2)
        ((sortTimeline merged).map (fun e => e.date)) := by
      rw [List.pairwise_map]
      exact hsorted
    rw [← hmd] at h1
    have h2 := List.pairwise_map.1 h1
    exact h2

/-- C2: milestone annotation.  With at most three events every event is
marked a milestone; with more than three, position 0 and the last position
are always milestones and each interior event is a milestone exactly when
its lowercased description contains one of `milestoneKeywords`. -/
theorem identifyMilestones_spec (events : List TEvent) :
    (events.length ≤ 3 → ∀ e ∈ identifyMilestones events, e.is_milestone = some true) ∧
    (3 < events.length → ∀ i, i < events.length →
      ((identifyMilestones events).getD i dummyEvent).is_milestone =
        some (if i = 0 ∨ i = events.length - 1 then true
              else hasMilestoneKeyword (events.getD i dummyEvent))) := by
  constructor
  · intro hle e he
    unfold identifyMilestones at he
    rw [if_pos hle] at he
    rcases List.mem_map.1 he with ⟨e2, _, rfl⟩
    rfl
  · intro hgt i hi
    unfold identifyMilestones
    rw [if_neg (by omega)]
    rw [mapWithIdx_getD _ events 0 i hi]
    simp only [Nat.zero_add]
    by_cases hcase : i = 0 ∨ i = events.length - 1
    · rw [if_pos hcase, if_pos hcase]
      rfl
    · rw [if_neg hcase, if_neg hcase]
      rfl

/-- C3: the collection phase of `generate_timeline` puts all AI-analysis
entries (those carrying both keys) first, and each synthesized
article-coverage entry has a date string that occurs neither among the
AI-analysis entries nor among the synthesized entries added before it —
so on a date shared with the AI analysis, only AI-analysis entries are
collected. -/
theorem collectEvents_first_writer_wins (analysis : AnalysisResult) (articles : List Article) :
    ∃ rest, collectEvents analysis articles = collectAI analysis ++ rest ∧
      (rest.map (fun e => e.date)).Nodup ∧
      ∀ e ∈ rest, e.date ∉ (collectAI analysis).map (fun e => e.date) := by
  rcases collectEvents_structure analysis articles with ⟨rest, heq, hnd, hmem⟩
  exact ⟨rest, heq, hnd, fun e he => (hmem e he).1⟩

/-- C10: the merge-by-date step conserves the number of collected raw
entries — summing `event_count` (defaulting to 1 where the key is absent)
over the merged events gives back the length of the collected list. -/
theorem mergeDuplicateDates_conserves_count (analysis : AnalysisResult) (articles : List Article) :
    ((mergeDuplicateDates (collectEvents analysis articles)).map
        (fun e => e.event_count.getD 1)).sum =
      (collectEvents analysis articles).length := by
  set events := collectEvents analysis articles with hev
  have hnone : ∀ e ∈ events, e.event_count = none := collectEvents_event_count analysis articles
  have haux : ∀ K : List String, (∀ d ∈ K, d ∈ events.map (fun e => e.date)) →
      ((K.filterMap (mergeOne events)).map (fun e => e.event_count.getD 1)).sum =
        (K.map (fun d => events.countP (fun e2 => e2.date == d))).sum := by
    intro K
    induction K with
    | nil => intro _; rfl
    | cons d ds ih =>
      intro hK
      rcases mergeOne_eq_some events d (hK d (List.mem_cons_self d ds)) with ⟨ev, hevd⟩
      rw [List.filterMap_cons, hevd, List.map_cons, List.sum_cons,
        mergeOne_getD_count events d ev hnone hevd, List.map_cons, List.sum_cons,
        ih (fun x hx => hK x (List.mem_cons_of_mem d hx)), List.countP_eq_length_filter]
  unfold mergeDuplicateDates
  rw [haux _ (fun d hd => (mem_uniqueKeys d _).1 hd),
    sum_countP_keys events _ (nodup_uniqueKeys _)
      (fun e he => (mem_uniqueKeys _ _).2 (List.mem_map_of_mem _ he))]

/-- Concrete analysis payload with one timeline entry; used to exhibit
that a singleton date group keeps no `event_count` key. -/
def oneEntryAnalysis : AnalysisResult :=
  { timeline := some [⟨some "2024-01-01", some "a"⟩] }

/-- C4 counterexample: on an analysis with a single timeline entry, the
consolidated output's only event does not carry `event_count = some 1` (the
key is absent), refuting the claim that every event carries a
`mergedCount` equal to its contributing-entry total. -/
theorem mergedCount_missing_for_singleton :
    ¬ (∀ e ∈ generateTimeline oneEntryAnalysis [],
        e.event_count =
          some ((collectEvents oneEntryAnalysis []).countP (fun e2 => e2.date == e.date)) ∧
        1 ≤ (collectEvents oneEntryAnalysis []).countP (fun e2 => e2.date == e.date)) := by
  decide

/-- C4 amended: in the merged output of the collected entries, an event
whose date groups exactly one raw entry passes through with no
`event_count` key, and an event whose date groups two or more raw entries
carries `event_count = some` (the full group size). -/
theorem mergeDuplicateDates_event_count (analysis : AnalysisResult) (articles : List Article) :
    ∀ e ∈ mergeDuplicateDates (collectEvents analysis articles),
      (((collectEvents analysis articles).filter
          (fun e2 => e2.date == e.date)).length = 1 → e.event_count = none) ∧
      (2 ≤ ((collectEvents analysis articles).filter
          (fun e2 => e2.date == e.date)).length →
        e.event_count = some ((collectEvents analysis articles).filter
          (fun e2 => e2.date == e.date)).length) := by
  intro e he
  unfold mergeDuplicateDates at he
  rcases List.mem_filterMap.1 he with ⟨d, _, hsome⟩
  have hdate := mergeOne_date (collectEvents analysis articles) d e hsome
  have hcount := mergeOne_event_count (collectEvents analysis articles) d e
    (collectEvents_event_count analysis articles) hsome
  rw [hdate]
  exact hcount

/-- Concrete analysis payload with two timeline entries on one date. -/
def twoEntryAnalysis : AnalysisResult :=
  { timeline := some [⟨some "2024-01-01", some "a"⟩, ⟨some "2024-01-01", some "b"⟩] }

/-- The merged event those two entries produce. -/
def mergedPairEvent : TEvent := ⟨"2024-01-01", "a | b", "ai_analysis", some 2, none⟩

/-- Witness for the amended C4 theorem at a concrete merged pair. -/
theorem mergeDuplicateDates_event_count_witness :
    mergedPairEvent ∈ mergeDuplicateDates (collectEvents twoEntryAnalysis []) ∧
    2 ≤ ((collectEvents twoEntryAnalysis []).filter
        (fun e2 => e2.date == mergedPairEvent.date)).length ∧
    mergedPairEvent.event_count = some ((collectEvents twoEntryAnalysis []).filter
        (fun e2 => e2.date == mergedPairEvent.date)).length :=
  ⟨by decide, by decide,
   (mergeDuplicateDates_event_count twoEntryAnalysis [] mergedPairEvent (by decide)).2 (by decide)⟩

theorem metaMentions_source (now : Nat) (pub : Option ParsedDate) :
    ∀ m ∈ metaMentions now pub, m.source = "metadata" := by
  intro m hm
  rcases pub with _ | p
  · simp [metaMentions] at hm
  · by_cases hp : p.ord ≤ now
    · simp only [metaMentions, if_pos hp, List.mem_singleton] at hm
      rw [hm]
    · simp [metaMentions, hp] at hm

theorem metaMentions_length (now : Nat) (pub : Option ParsedDate) :
    (metaMentions now pub).length ≤ 1 := by
  rcases pub with _ | p
  · simp [metaMentions]
  · by_cases hp : p.ord ≤ now
    · simp [metaMentions, hp]
    · simp [metaMentions, hp]

theorem dedupCands_source (now : Nat) :
    ∀ (cs : List ParsedDate) (found : List String), ∀ m ∈ dedupCands now found cs,
      m.source = "text" := by
  intro cs
  induction cs with
  | nil => intro found m hm; simp [dedupCands] at hm
  | cons c cs ih =>
    intro found m hm
    unfold dedupCands at hm
    by_cases h1 : now < c.ord
    · rw [if_pos h1] at hm; exact ih found m hm
    · rw [if_neg h1] at hm
      by_cases h2 : c.key ∈ found
      · rw [if_pos h2] at hm; exact ih found m hm
      · rw [if_neg h2] at hm
        rcases List.mem_cons.1 hm with rfl | hm2
        · rfl
        · exact ih _ m hm2

theorem dedupCands_dates (now : Nat) :
    ∀ (cs : List ParsedDate) (found : List String),
      ((dedupCands now found cs).map (fun m => m.date)).Nodup ∧
      ∀ m ∈ dedupCands now found cs, m.date ∉ found := by
  intro cs
  induction cs with
  | nil =>
    intro found
    constructor
    · simp [dedupCands]
    · intro m hm; simp [dedupCands] at hm
  | cons c cs ih =>
    intro found
    unfold dedupCands
    by_cases h1 : now < c.ord
    · rw [if_pos h1]; exact ih found
    · rw [if_neg h1]
      by_cases h2 : c.key ∈ found
      · rw [if_pos h2]; exact ih found
      · rw [if_neg h2]
        rcases ih (c.key :: found) with ⟨hnd, hmem⟩
        constructor
        · rw [List.map_cons]
          refine List.Nodup.cons ?_ hnd
          intro hc
          rcases List.mem_map.1 hc with ⟨m, hm, hdm⟩
          refine hmem m hm ?_
          rw [hdm]
          exact List.mem_cons_self _ _
        · intro m hm
          rcases List.mem_cons.1 hm with rfl | hm2
          · exact h2
          · intro hmf
            exact (hmem m hm2) (List.mem_cons_of_mem _ hmf)

theorem extractDates_eq (now : Nat) (pub : Option ParsedDate) (cands : List ParsedDate) :
    extractDates now pub cands =
      List.insertionSort mentionLE
        ((metaMentions now pub ++ dedupCands now [] cands).filter (fun m => m.ord ≤ now)) := rfl

/-- Publication-date parse outcome used in the C7 counterexample. -/
def dupPub : ParsedDate := ⟨"2024-01-05", 5, ""⟩

/-- Text candidate on the same calendar day as `dupPub`. -/
def dupCand : ParsedDate := ⟨"2024-01-05", 5, "ctx"⟩

/-- C7 counterexample: when a text mention falls on the publication date,
`_extract_dates` emits both (the metadata mention is never entered into
`found_dates`), so the output is not deduplicated by calendar day. -/
theorem extractDates_duplicate_date :
    ¬ (((extractDates 10 (some dupPub) [dupCand]).map (fun m => m.date)).Nodup) := by
  decide

/-- C7 amended: the TEXT mentions returned by `_extract_dates` are
deduplicated by normalized date among themselves, and at most one METADATA
mention is emitted; the METADATA mention may still repeat a TEXT mention's
date. -/
theorem extractDates_text_nodup (now : Nat) (pub : Option ParsedDate) (cands : List ParsedDate) :
    (((extractDates now pub cands).filter (fun m => m.source == "text")).map
        (fun m => m.date)).Nodup ∧
    ((extractDates now pub cands).filter (fun m => m.source == "metadata")).length ≤ 1 := by
  rw [extractDates_eq]
  set valid := (metaMentions now pub ++ dedupCands now [] cands).filter
    (fun m => m.ord ≤ now) with hv
  have hperm : (List.insertionSort mentionLE valid).Perm valid :=
    List.perm_insertionSort mentionLE valid
  constructor
  · have hp2 : ((List.insertionSort mentionLE valid).filter (fun m => m.source == "text")).Perm
        (valid.filter (fun m => m.source == "text")) := hperm.filter _
    refine ((hp2.map (fun m => m.date)).nodup_iff).2 ?_
    have hsub : (valid.filter (fun m => m.source == "text")).Sublist
        (dedupCands now [] cands) := by
      rw [hv, List.filter_comm, List.filter_append]
      have hmeta : (metaMentions now pub).filter (fun m => m.source == "text") = [] := by
        rw [List.filter_eq_nil_iff]
        intro m hm
        rw [metaMentions_source now pub m hm]
        decide
      rw [hmeta, List.nil_append]
      exact ((List.filter_sublist _).trans (List.filter_sublist _))
    exact ((hsub.map (fun m => m.date)).nodup (dedupCands_dates now cands []).1)
  · have hlen : ((List.insertionSort mentionLE valid).filter
          (fun m => m.source == "metadata")).length =
        (valid.filter (fun m => m.source == "metadata")).length := by
      rw [← List.countP_eq_length_filter, ← List.countP_eq_length_filter]
      exact hperm.countP_eq _
    rw [hlen, hv, List.filter_comm, List.filter_append]
    have htext : (dedupCands now [] cands).filter (fun m => m.source == "metadata") = [] := by
      rw [List.filter_eq_nil_iff]
      intro m hm
      rw [dedupCands_source now cands [] m hm]
      decide
    rw [htext, List.append_nil]
    exact le_trans
      (List.Sublist.length_le ((List.filter_sublist _).trans (List.filter_sublist _)))
      (metaMentions_length now pub)

theorem biasFold (t : String) : ∀ (ws : List String) (s0 : Nat) (fl0 : List String),
    ((ws.foldl (biasStep t) (s0, fl0)).1 =
        s0 + 10 * ws.countP (fun w => strContains t w)) ∧
    ((ws.foldl (biasStep t) (s0, fl0)).2.length =
        fl0.length + ws.countP (fun w => strContains t w)) := by
  intro ws
  induction ws with
  | nil => intro s0 fl0; simp
  | cons w ws ih =>
    intro s0 fl0
    rw [List.foldl_cons]
    cases hb : strContains t w
    case false =>
      have hstep : biasStep t (s0, fl0) w = (s0, fl0) := by
        unfold biasStep
        rw [if_neg (by simp [hb])]
      rw [hstep]
      have h1 := ih s0 fl0
      refine ⟨?_, ?_⟩
      · rw [h1.1, List.countP_cons]
        simp [hb]
      · rw [h1.2, List.countP_cons]
        simp [hb]
    case true =>
      have hstep : biasStep t (s0, fl0) w =
          (s0 + 10, fl0 ++ ["Clickbait language detected: \x27" ++ w ++ "\x27"]) := by
        unfold biasStep
        rw [if_pos hb]
      rw [hstep]
      have h1 := ih (s0 + 10) (fl0 ++ ["Clickbait language detected: \x27" ++ w ++ "\x27"])
      refine ⟨?_, ?_⟩
      · rw [h1.1, List.countP_cons]
        simp [hb]
        omega
      · rw [h1.2, List.countP_cons, List.length_append]
        simp [hb]
        omega

/-- Zeta-expanded form of `detectBias`, used to reason about its fields
without unfolding the word-list fold. -/
theorem detectBias_eq (article : Article) :
    detectBias article =
      { bias_score :=
          min (if 3 < exclamationCount article
               then ((clickbaitWords.foldl (biasStep (strLower (article.title.getD ""))) (0, [])).1 + 5,
                     (clickbaitWords.foldl (biasStep (strLower (article.title.getD ""))) (0, [])).2
                       ++ ["Excessive exclamation marks"])
               else clickbaitWords.foldl (biasStep (strLower (article.title.getD ""))) (0, [])).1 100,
        flags :=
          (if 3 < exclamationCount article
           then ((clickbaitWords.foldl (biasStep (strLower (article.title.getD ""))) (0, [])).1 + 5,
                 (clickbaitWords.foldl (biasStep (strLower (article.title.getD ""))) (0, [])).2
                   ++ ["Excessive exclamation marks"])
           else clickbaitWords.foldl (biasStep (strLower (article.title.getD ""))) (0, [])).2,
        is_clickbait :=
          decide (15 <
            (if 3 < exclamationCount article
             then ((clickbaitWords.foldl (biasStep (strLower (article.title.getD ""))) (0, [])).1 + 5,
                   (clickbaitWords.foldl (biasStep (strLower (article.title.getD ""))) (0, [])).2
                     ++ ["Excessive exclamation marks"])
             else clickbaitWords.foldl (biasStep (strLower (article.title.getD ""))) (0, [])).1) } := rfl

/-- C6 amended: `detect_bias` adds 10 (and one flag) per clickbait phrase
found in the lowercased **title only**, and 5 (and one flag) when the title
plus first-1000-characters-of-content exclamation count exceeds 3; the
reported score is capped at 100 and `is_clickbait` compares the uncapped
score with 15. -/
theorem detectBias_spec (article : Article) :
    (detectBias article).bias_score =
      min (10 * clickbaitWords.countP (fun w => strContains (strLower (article.title.getD "")) w)
           + (if 3 < exclamationCount article then 5 else 0)) 100 ∧
    (detectBias article).flags.length =
      clickbaitWords.countP (fun w => strContains (strLower (article.title.getD "")) w)
      + (if 3 < exclamationCount article then 1 else 0) ∧
    (detectBias article).is_clickbait =
      decide (15 < 10 * clickbaitWords.countP
          (fun w => strContains (strLower (article.title.getD "")) w)
        + (if 3 < exclamationCount article then 5 else 0)) := by
  have hfold := biasFold (strLower (article.title.getD "")) clickbaitWords 0 []
  rw [detectBias_eq]
  by_cases hex : 3 < exclamationCount article
  · rw [if_pos hex]
    refine ⟨?_, ?_, ?_⟩
    · show min ((clickbaitWords.foldl (biasStep (strLower (article.title.getD ""))) (0, [])).1 + 5)
          100 = _
      rw [hfold.1]
      simp [hex]
    · show ((clickbaitWords.foldl (biasStep (strLower (article.title.getD ""))) (0, [])).2
          ++ ["Excessive exclamation marks"]).length = _
      rw [List.length_append, hfold.2]
      simp [hex]
    · show decide
          (15 < (clickbaitWords.foldl (biasStep (strLower (article.title.getD ""))) (0, [])).1 + 5)
          = _
      rw [hfold.1]
      simp [hex]
  · rw [if_neg hex]
    refine ⟨?_, ?_, ?_⟩
    · rw [hfold.1]
      simp [hex]
    · rw [hfold.2]
      simp [hex]
    · rw [hfold.1]
      simp [hex]

theorem detectBias_bias_le (article : Article) : (detectBias article).bias_score ≤ 100 := by
  rw [(detectBias_spec article).1]
  exact Nat.min_le_right _ _

/-- Stated from the claim's words for refutation: a bias score that scans
both the title and the first 1000 characters of the content for clickbait
phrases. -/
def claimedBiasScore (article : Article) : Nat :=
  let titleLower := strLower (article.title.getD "")
  let contentLower := strLower (strTake (article.cleaned_content.getD "") 1000)
  10 * clickbaitWords.countP (fun w => strContains titleLower w || strContains contentLower w)
    + (if 3 < exclamationCount article then 5 else 0)

/-- Article whose only clickbait phrase sits in the content body. -/
def contentClickbaitArticle : Article :=
  { title := some "", cleaned_content := some "shocking" }

/-- C6 counterexample: a clickbait phrase occurring only in the content
contributes nothing in the code (`detect_bias` scans `title_lower` only),
while the claim's title-or-content scan would add 10. -/
theorem detectBias_ignores_content :
    (detectBias contentClickbaitArticle).bias_score = 0 ∧
    claimedBiasScore contentClickbaitArticle = 10 ∧ (0 : Nat) ≠ 10 := by
  refine ⟨by decide, by decide, by decide⟩

/-- Zeta-expanded form of `scoreSource`. -/
theorem scoreSource_eq (s : String) :
    scoreSource s =
      (if (REPUTABLE_SOURCES.map strLower).any (fun r => strContains (strLower s) r) then
        if topTierNames.any (fun n => strContains (strLower s) n) then
          ⟨95, (REPUTABLE_SOURCES.map strLower).any (fun r => strContains (strLower s) r),
           "Highly reputable news source", s⟩
        else
          ⟨88, (REPUTABLE_SOURCES.map strLower).any (fun r => strContains (strLower s) r),
           "Known reputable news source", s⟩
      else if ["news", "times", "post", "tribune"].any (fun w => strContains (strLower s) w) then
        ⟨70, (REPUTABLE_SOURCES.map strLower).any (fun r => strContains (strLower s) r),
         "Appears to be a news organization", s⟩
      else if ["blog", "medium", "substack"].any (fun w => strContains (strLower s) w) then
        ⟨40, (REPUTABLE_SOURCES.map strLower).any (fun r => strContains (strLower s) r),
         "Blog or independent publication", s⟩
      else
        ⟨55, (REPUTABLE_SOURCES.map strLower).any (fun r => strContains (strLower s) r),
         "Unknown source", s⟩) := rfl

theorem scoreSource_score_cases (s : String) :
    (scoreSource s).score = 95 ∨ (scoreSource s).score = 88 ∨ (scoreSource s).score = 70 ∨
    (scoreSource s).score = 40 ∨ (scoreSource s).score = 55 := by
  rw [scoreSource_eq]
  split
  · split
    · exact Or.inl rfl
    · exact Or.inr (Or.inl rfl)
  · split
    · exact Or.inr (Or.inr (Or.inl rfl))
    · split
      · exact Or.inr (Or.inr (Or.inr (Or.inl rfl)))
      · exact Or.inr (Or.inr (Or.inr (Or.inr rfl)))

theorem scoreSource_score_ge (s : String) : 40 ≤ (scoreSource s).score := by
  rcases scoreSource_score_cases s with h | h | h | h | h <;> omega

/-- Zeta-expanded `overall_score` of `scoreArticle`. -/
theorem scoreArticle_overall (article : Article) :
    (scoreArticle article).overall_score =
      min 100 (if (detectBias article).is_clickbait
        then (Int.floor (((scoreSource (article.source.getD "Unknown")).score : ℚ) * (7 / 10)
              + ((100 - (detectBias article).bias_score : Nat) : ℚ) * (3 / 10))).toNat - 20
        else (Int.floor (((scoreSource (article.source.getD "Unknown")).score : ℚ) * (7 / 10)
              + ((100 - (detectBias article).bias_score : Nat) : ℚ) * (3 / 10))).toNat) := rfl

/-- Stated from the claim's words for refutation: the overall score as
`round(sourceScore*0.7 + (100-biasScore)*0.3)`, clickbait penalty floored
at 0, clamped to `[0, 100]`. -/
def specOverallScore (source_score bias_score : ℚ) (is_clickbait : Bool) : ℤ :=
  let r := round (source_score * (7 / 10) + (100 - bias_score) * (3 / 10))
  let r2 := if is_clickbait then max 0 (r - 20) else r
  min 100 (max 0 r2)

/-- The amended formula actually computed by `score_article`: truncation
(`int(...)`, i.e. the floor of a nonnegative value) instead of rounding,
with the content term floored at 0. -/
def specOverallAmended (source_score bias_score : ℚ) (is_clickbait : Bool) : ℤ :=
  let r := Int.floor (source_score * (7 / 10) + (max 0 (100 - bias_score)) * (3 / 10))
  let r2 := if is_clickbait then max 0 (r - 20) else r
  min 100 (max 0 r2)

/-- Article used to separate truncation from rounding: source "BBC"
(score 95) with one clickbait word (bias 10, content 90); the blend is
93.5, which the code truncates to 93 while the claim's rounding gives 94. -/
def bbcArticle : Article :=
  { title := some "shocking news", source := some "BBC", cleaned_content := some "" }

/-- C5 counterexample: on `bbcArticle` the code computes 93 but the
claim's `round` formula (at the very sub-scores the code derived) gives
94. -/
theorem scoreArticle_truncates_not_rounds :
    (scoreArticle bbcArticle).overall_score = 93 ∧
    specOverallScore ((scoreArticle bbcArticle).source_score : ℚ)
      ((scoreArticle bbcArticle).bias_score : ℚ) (scoreArticle bbcArticle).is_clickbait = 94 ∧
    (93 : ℤ) ≠ 94 := by
  have hbias : detectBias bbcArticle =
      ⟨10, ["Clickbait language detected: \x27shocking\x27"], false⟩ := by decide
  have hsrc : scoreSource (bbcArticle.source.getD "Unknown") =
      ⟨95, true, "Highly reputable news source", "BBC"⟩ := by decide
  have hfloor : Int.floor (((95 : Nat) : ℚ) * (7 / 10) + (((100 - 10 : Nat)) : ℚ) * (3 / 10)) = 93 := by
    rw [Int.floor_eq_iff]
    norm_num
  have hcode : (scoreArticle bbcArticle).overall_score = 93 := by
    rw [scoreArticle_overall, hbias, hsrc]
    simp only []
    rw [if_neg (by simp)]
    rw [hfloor]
    rfl
  have hss : (scoreArticle bbcArticle).source_score = 95 := by
    show (scoreSource (bbcArticle.source.getD "Unknown")).score = 95
    rw [hsrc]
  have hbs : (scoreArticle bbcArticle).bias_score = 10 := by
    show (detectBias bbcArticle).bias_score = 10
    rw [hbias]
  have hcb : (scoreArticle bbcArticle).is_clickbait = false := by
    show (detectBias bbcArticle).is_clickbait = false
    rw [hbias]
  refine ⟨hcode, ?_, by decide⟩
  rw [hss, hbs, hcb]
  unfold specOverallScore
  have hround : round (((95 : Nat) : ℚ) * (7 / 10) + (100 - ((10 : Nat) : ℚ)) * (3 / 10)) = 94 := by
    rw [round_eq, Int.floor_eq_iff]
    norm_num
  rw [hround]
  decide

/-- Zeta-expanded form of `specOverallAmended`. -/
theorem specOverallAmended_eq (s b : ℚ) (cb : Bool) :
    specOverallAmended s b cb =
      min 100 (max 0 (if cb
        then max 0 (Int.floor (s * (7 / 10) + (max 0 (100 - b)) * (3 / 10)) - 20)
        else Int.floor (s * (7 / 10) + (max 0 (100 - b)) * (3 / 10)))) := rfl

/-- C5 amended: the overall article score equals the truncation formula
`int(sourceScore*0.7 + max(0, 100-biasScore)*0.3)` with the clickbait
penalty floored at 0 and a final cap at 100, and it always lies in
`[0, 100]`. -/
theorem scoreArticle_formula_and_range (article : Article) :
    ((scoreArticle article).overall_score : ℤ) =
      specOverallAmended ((scoreSource (article.source.getD "Unknown")).score : ℚ)
        ((detectBias article).bias_score : ℚ) (detectBias article).is_clickbait ∧
    (scoreArticle article).overall_score ≤ 100 := by
  have hble : (detectBias article).bias_score ≤ 100 := detectBias_bias_le article
  have harg : ((100 - (detectBias article).bias_score : Nat) : ℚ) =
      max 0 (100 - ((detectBias article).bias_score : ℚ)) := by
    rw [Nat.cast_sub hble, eq_comm]
    apply max_eq_right
    have h2 : ((detectBias article).bias_score : ℚ) ≤ 100 := by exact_mod_cast hble
    linarith
  constructor
  · rw [scoreArticle_overall, specOverallAmended_eq, ← harg]
    set F := Int.floor (((scoreSource (article.source.getD "Unknown")).score : ℚ) * (7 / 10)
      + ((100 - (detectBias article).bias_score : Nat) : ℚ) * (3 / 10)) with hFdef
    have hF0 : 0 ≤ F := by
      rw [hFdef]
      refine Int.le_floor.2 ?_
      push_cast
      positivity
    cases hcb : (detectBias article).is_clickbait
    · simp only [Bool.false_eq_true, if_false]
      push_cast
      omega
    · simp only [if_true]
      push_cast
      omega
  · rw [scoreArticle_overall]
    exact Nat.min_le_left _ _

/-- C8: `get_timeline_stats` calls `strptime` with no exception handling,
so a timeline event whose date does not parse as `%Y-%m-%d` makes it raise
`ValueError` instead of returning statistics — even though the sorter of
the same module deliberately absorbs exactly this parse failure by
treating the date as `datetime.min`. -/
theorem getTimelineStats_raises_on_unparseable :
    getTimelineStats [⟨"not-a-date", "Event", "src", none, some true⟩] =
      Except.error "ValueError: time data does not match format %Y-%m-%d" ∧
    dateKeyS "not-a-date" = dateRank (1, 1, 1) :=
  ⟨rfl, by decide⟩

/-- C9: with zero fetched articles the application aborts with an explicit
error message before any timeline is built, and the core itself, run on
zero articles with the fallback analysis, yields the empty timeline — never
a nonempty "successful" one. -/
theorem zero_articles_explicit_failure (q : String) :
    appAnalyzeArticles q [] = Except.error noArticlesError ∧
    generateTimeline (basicAnalysis q []) [] = [] :=
  ⟨rfl, rfl⟩

/-- Three-or-fewer-event timeline used in the C2 witness. -/
def ev3 : List TEvent := [⟨"2024-01-01", "a", "s", none, none⟩]

/-- Four-event timeline used in the C2 witness. -/
def ev4 : List TEvent :=
  [⟨"2024-01-01", "start", "s", none, none⟩,
   ⟨"2024-01-02", "rocket launch", "s", none, none⟩,
   ⟨"2024-01-03", "plain", "s", none, none⟩,
   ⟨"2024-01-04", "end", "s", none, none⟩]

/-- Witness for the milestone theorem at concrete timelines. -/
theorem identifyMilestones_spec_witness :
    (ev3.length ≤ 3 ∧
      (⟨"2024-01-01", "a", "s", none, some true⟩ : TEvent).is_milestone = some true) ∧
    (3 < ev4.length ∧
      ((identifyMilestones ev4).getD 2 dummyEvent).is_milestone =
        some (if 2 = 0 ∨ 2 = ev4.length - 1 then true
              else hasMilestoneKeyword (ev4.getD 2 dummyEvent))) :=
  ⟨⟨by decide, (identifyMilestones_spec ev3).1 (by decide)
      ⟨"2024-01-01", "a", "s", none, some true⟩ (by decide)⟩,
   ⟨by decide, (identifyMilestones_spec ev4).2 (by decide) 2 (by decide)⟩⟩
